import Mathlib

/-!
Verification development for the workflow-assistant-rag repository.

The development shallowly embeds the two algorithmic modules of the
repository:

* `src/validate.py` — JSON-schema validation (`validate_output`) and the
  coverage metric (`coverage_metric`).  `validate_output` delegates to
  `jsonschema.validate` (draft-07); the behaviour of that library call is
  modelled here for the keyword subset actually exercised by the
  repository's schemas (`type`, `properties`, `required`, `enum`), faithful
  to the library's documented and source behaviour: every keyword of a
  schema object is checked independently in the schema's key order, errors
  are produced in depth-first traversal order, `jsonschema.validate` first
  checks the schema itself against the draft-07 meta-schema (raising
  `SchemaError`), and then raises only the single `best_match` of the
  collected validation errors.

* `src/retriever.py` — TF-IDF retrieval (`build_index`, `get_top_k`) built
  on scikit-learn's `TfidfVectorizer` with default settings and on
  `numpy.argsort`.  Machine floats are idealised as exact arithmetic:
  vectors live in `ℚ`, and the cosine similarity `d / sqrt s` produced by
  the normalised dot products is represented exactly by the pair
  `(d, s) : ℚ × ℚ` (numerator and the square of the denominator), with
  comparisons of represented values implemented exactly on the pairs.
  The idf weight `log ((1 + n) / (1 + df)) + 1` is irrational, so the idf
  function is a parameter `idfW : ℕ → ℕ → ℚ` of the embedding; the only
  fact about it the source guarantees and the theorems use is positivity
  (the true weight is always ≥ 1).
-/

/-- JSON-like values, as produced by `json.load`: the candidate outputs,
schemas and example configurations of the repository.  Numbers are
idealised as `ℚ` (Python's int/float distinction is kept only through
`q.den = 1` where the draft-07 `integer` type needs it). -/
inductive Json where
  | null
  | bool (b : Bool)
  | num (q : ℚ)
  | str (s : String)
  | arr (xs : List Json)
  | obj (kvs : List (String × Json))

/-- First binding of key `k` in an object's key/value list.  Candidate and
schema objects model parsed JSON dicts, whose keys are unique. -/
def jlookup (kvs : List (String × Json)) (k : String) : Option Json :=
  match kvs with
  | [] => none
  | (k1, v) :: rest => if k1 = k then some v else jlookup rest k

/-- `k in candidate` for a dict candidate: membership among the keys.
Non-dict candidates have no keys. -/
def hasKey (c : Json) (k : String) : Bool :=
  match c with
  | .obj kvs => kvs.any (fun kv => kv.1 = k)
  | _ => false

mutual

/-- Structural equality of JSON values, modelling Python `==` as used by the
`enum` validator.  (Python dict equality ignores key order; the repository's
schemas only place strings in `enum`, so object members of an `enum` never
arise and the model compares objects in binding order.) -/
def jeq : Json → Json → Bool
  | .null, .null => true
  | .bool a, .bool b => a == b
  | .num a, .num b => a == b
  | .str a, .str b => a == b
  | .arr xs, .arr ys => jeqList xs ys
  | .obj a, .obj b => jeqObj a b
  | _, _ => false

def jeqList : List Json → List Json → Bool
  | [], [] => true
  | x :: xs, y :: ys => jeq x y && jeqList xs ys
  | _, _ => false

def jeqObj : List (String × Json) → List (String × Json) → Bool
  | [], [] => true
  | (k1, v1) :: xs, (k2, v2) :: ys => k1 == k2 && jeq v1 v2 && jeqObj xs ys
  | _, _ => false

end

mutual

/-- Python `repr` of a parsed JSON value, as interpolated into
`jsonschema` error messages.  Abridged where the claims cannot observe it:
string escaping is omitted and a non-integral number is rendered as a
fraction rather than a decimal float. -/
def reprJson : Json → String
  | .null => "None"
  | .bool true => "True"
  | .bool false => "False"
  | .num q => if q.den = 1 then toString q.num else toString q
  | .str s => "\x27" ++ s ++ "\x27"
  | .arr xs => "[" ++ reprJsonList xs ++ "]"
  | .obj kvs => "\x7b" ++ reprJsonObj kvs ++ "\x7d"

def reprJsonList : List Json → String
  | [] => ""
  | [x] => reprJson x
  | x :: xs => reprJson x ++ ", " ++ reprJsonList xs

def reprJsonObj : List (String × Json) → String
  | [] => ""
  | [(k, v)] => "\x27" ++ k ++ "\x27: " ++ reprJson v
  | (k, v) :: kvs => "\x27" ++ k ++ "\x27: " ++ reprJson v ++ ", " ++ reprJsonObj kvs

end

/-- A `jsonschema.ValidationError`, restricted to the fields `validate.py`
reads: the instance path from the root (property names only — the modelled
keywords never descend through arrays), the message, the failing keyword
(used by `best_match` relevance), and the messages of the `context`
sub-errors.  For the modelled keyword set (`type`, `properties`,
`required`, `enum`) the context is always empty: `jsonschema` populates
`context` only for subschema combinators (`anyOf`/`oneOf`/...), which the
repository's schemas do not use (spec §1 non-goals). -/
structure VErr where
  path : List String
  message : String
  keyword : String
  context : List String
deriving DecidableEq, Repr

/-- Draft-07 type check (`TypeChecker.is_type`): booleans are not numbers,
`integer` accepts an integral number. -/
def typeMatches (t : String) (inst : Json) : Bool :=
  match t with
  | "object" => match inst with | .obj _ => true | _ => false
  | "array" => match inst with | .arr _ => true | _ => false
  | "string" => match inst with | .str _ => true | _ => false
  | "boolean" => match inst with | .bool _ => true | _ => false
  | "null" => match inst with | .null => true | _ => false
  | "number" => match inst with | .num _ => true | _ => false
  | "integer" => match inst with | .num q => q.den = 1 | _ => false
  | _ => false

/-- Errors of the draft-07 `type` keyword: the declared type is a single
name or a list of names; no error if any matches.  (An unknown type name in
a checked schema is unreachable: `check_schema` rejects it first.) -/
def typeErrors (val inst : Json) : List VErr :=
  let ts := match val with | .arr xs => xs | x => [x]
  if ts.any (fun x => match x with | .str t => typeMatches t inst | _ => false) then []
  else
    [⟨[], reprJson inst ++ " is not of type " ++
        String.intercalate (", ") (ts.map reprJson), "type", []⟩]

/-- Errors of the draft-07 `required` keyword: skipped for non-object
instances; one error per required name absent from the instance, in the
order of the `required` array. -/
def requiredErrors (val inst : Json) : List VErr :=
  match inst with
  | .obj _ =>
    match val with
    | .arr reqs =>
      reqs.filterMap (fun r =>
        let present := match r with | .str name => hasKey inst name | _ => false
        if present then none
        else some ⟨[], reprJson r ++ " is a required property", "required", []⟩)
    | _ => []
  | _ => []

/-- Errors of the draft-07 `enum` keyword: one error if the instance equals
no member of the declared list. -/
def enumErrors (val inst : Json) : List VErr :=
  match val with
  | .arr es =>
    if es.any (fun e => jeq e inst) then []
    else [⟨[], reprJson inst ++ " is not one of " ++ reprJson (.arr es), "enum", []⟩]
  | _ => []

mutual

/-- `Draft7Validator.iter_errors`, restricted to the keywords the
repository's schemas use: each keyword of the schema object is checked
independently, in the schema's key order; `properties` recursion prefixes
the property name onto the instance path of the child's errors.  Errors
therefore come out in depth-first traversal order.  A `true`/`false`
boolean schema allows/refuses everything.  (Non-object, non-boolean schemas
are unreachable after `check_schema`.) -/
def iterErrors (schema inst : Json) : List VErr :=
  match schema with
  | .bool false => [⟨[], "False schema does not allow " ++ reprJson inst, "false", []⟩]
  | .obj kvs => iterKeywords kvs inst
  | _ => []

def iterKeywords (kvs : List (String × Json)) (inst : Json) : List VErr :=
  match kvs with
  | [] => []
  | (key, val) :: rest =>
    (if key = "type" then typeErrors val inst
     else if key = "properties" then propertiesErrors val inst
     else if key = "required" then requiredErrors val inst
     else if key = "enum" then enumErrors val inst
     else []) ++ iterKeywords rest inst

def propertiesErrors (props inst : Json) : List VErr :=
  match props with
  | .obj ps =>
    match inst with
    | .obj ikvs => propertiesErrorsList ps ikvs
    | _ => []
  | _ => []

def propertiesErrorsList (ps : List (String × Json)) (ikvs : List (String × Json)) :
    List VErr :=
  match ps with
  | [] => []
  | (pname, psub) :: rest =>
    (match jlookup ikvs pname with
     | some child => (iterErrors psub child).map (fun e => { e with path := pname :: e.path })
     | none => []) ++ propertiesErrorsList rest ikvs

end

/-- Valid draft-07 `type` values: a simple-type name or a non-empty array
of simple-type names (meta-schema `simpleTypes`). -/
def checkTypeSpec (v : Json) : Option String :=
  let isPrim : Json → Bool := fun x =>
    match x with
    | .str s =>
      s = "object" || s = "array" || s = "string" || s = "number" ||
      s = "integer" || s = "boolean" || s = "null"
    | _ => false
  match v with
  | .arr xs =>
    if xs.isEmpty then some (reprJson v ++ " is not valid under the simpleTypes schema")
    else if xs.all isPrim then none
    else some (reprJson v ++ " is not valid under the simpleTypes schema")
  | x =>
    if isPrim x then none
    else some (reprJson x ++ " is not valid under the simpleTypes schema")

/-- Valid draft-07 `required` values: an array of strings. -/
def checkRequiredSpec (v : Json) : Option String :=
  match v with
  | .arr xs =>
    if xs.all (fun x => match x with | .str _ => true | _ => false) then none
    else some (reprJson v ++ " is not an array of strings")
  | _ => some (reprJson v ++ " is not of type \x27array\x27")

/-- Valid draft-07 `enum` values: an array. -/
def checkEnumSpec (v : Json) : Option String :=
  match v with
  | .arr _ => none
  | _ => some (reprJson v ++ " is not of type \x27array\x27")

mutual

/-- `cls.check_schema(schema)`: validation of the schema against the
draft-07 meta-schema, restricted to the constraints on the modelled
keywords.  A schema is an object or a boolean; `type` must be a simple-type
name or non-empty array of them; `properties` must be an object each of
whose values is itself a valid schema; `required` must be an array of
strings; `enum` must be an array; other keys are unconstrained.  Returns
the message of the first meta-error in traversal order (the real
`check_schema` raises a `SchemaError` carrying one best-match meta-error;
only which message is carried differs, not whether one is raised). -/
def checkSchema : Json → Option String
  | .bool _ => none
  | .obj kvs => checkKeywords kvs
  | j => some (reprJson j ++ " is not of type \x27object\x27, \x27boolean\x27")

def checkKeywords : List (String × Json) → Option String
  | [] => none
  | (key, val) :: rest =>
    (if key = "type" then checkTypeSpec val
     else if key = "properties" then checkProperties val
     else if key = "required" then checkRequiredSpec val
     else if key = "enum" then checkEnumSpec val
     else none).orElse (fun _ => checkKeywords rest)

def checkProperties : Json → Option String
  | .obj ps => checkPropertiesList ps
  | j => some (reprJson j ++ " is not of type \x27object\x27")

def checkPropertiesList : List (String × Json) → Option String
  | [] => none
  | (_, sub) :: rest => (checkSchema sub).orElse (fun _ => checkPropertiesList rest)

end

/-- `jsonschema.exceptions.best_match` with the default relevance key.
For the modelled keywords none is in `WEAK_MATCHES`/`STRONG_MATCHES`, so
the relevance tuple reduces to `-len(error.path)`: `max` keeps the error of
minimal path depth, and — as Python's `max` does — the earliest among
ties.  The recursion of `best_match` into the winner's `context` never
fires because contexts are empty here. -/
def bestMatch (errs : List VErr) : Option VErr :=
  match errs with
  | [] => none
  | e :: rest =>
    some (rest.foldl (fun best x => if x.path.length < best.path.length then x else best) e)

/-- The exceptions `validate.py` distinguishes around its call to
`jsonschema.validate`: a `ValidationError` (the best-match error), a
`SchemaError` (broken schema), or any other unexpected exception.  The
`unexpected` constructor is the model's slot for an arbitrary internal
fault; `jvalidate` itself never produces it. -/
inductive JExc where
  | validationError (e : VErr)
  | schemaError (msg : String)
  | unexpected (msg : String)
deriving DecidableEq

/-- `jsonschema.validate(instance, schema)`: first `check_schema` (raising
`SchemaError` if the schema is malformed), then raise the best match of
`iter_errors` if any, else return normally. -/
def jvalidate (inst schema : Json) : Except JExc Unit :=
  (checkSchema schema).elim
    ((bestMatch (iterErrors schema inst)).elim (.ok ())
      (fun e => .error (.validationError e)))
    (fun m => .error (.schemaError m))

/-- Message layout of `validate.py` for the caught `ValidationError`:
`f"Validation error at path '{'.'.join(str(p) for p in e.path)}': {e.message}"`. -/
def fmtVErr (e : VErr) : String :=
  "Validation error at path \x27" ++ String.intercalate (".") e.path ++ "\x27: " ++ e.message

/-- Message layout of the sub-error loop of `validate.py`:
`f"  - Sub-error: {suberror.message}"`. -/
def fmtSubErr (m : String) : String := "  - Sub-error: " ++ m

/-- The `try/except` structure of `validate_output`, as a total function of
the inner call's outcome.  Every exception constructor is mapped to a
returned `(False, errors)` verdict — `ValidationError` to the formatted
message plus its context sub-errors, `SchemaError` to a single
`"Schema error: ..."` entry, and any other exception to a single
`"Unexpected validation error: ..."` entry. -/
def handleValidation : Except JExc Unit → Bool × List String
  | .ok _ => (true, [])
  | .error (.validationError e) => (false, fmtVErr e :: e.context.map fmtSubErr)
  | .error (.schemaError m) => (false, ["Schema error: " ++ m])
  | .error (.unexpected m) => (false, ["Unexpected validation error: " ++ m])

/-- `validate_output(candidate, schema)` of `src/validate.py`. -/
def validate_output (candidate schema : Json) : Bool × List String :=
  handleValidation (jvalidate candidate schema)

/-- `schema.get('required', [])` of `coverage_metric`, for schemas whose
`required` (when present) is an array, as the meta-schema demands.  An
absent key yields `[]` (Python then returns 1.0 on the falsy empty
list). -/
def getRequired (schema : Json) : List Json :=
  match schema with
  | .obj kvs =>
    match jlookup kvs "required" with
    | some (.arr xs) => xs
    | _ => []
  | _ => []

/-- `sum(1 for field in required_fields if field in candidate)`: a
non-string required entry is never a key of a (string-keyed) parsed dict. -/
def requiredPresent (candidate : Json) (reqs : List Json) : ℕ :=
  (reqs.filter (fun r => match r with | .str s => hasKey candidate s | _ => false)).length

/-- `coverage_metric(candidate, schema)` of `src/validate.py`. -/
def coverage_metric (candidate schema : Json) : ℚ :=
  let reqs := getRequired schema
  if reqs.isEmpty then 1
  else (requiredPresent candidate reqs : ℚ) / (reqs.length : ℚ)

/-- Word characters of the default `TfidfVectorizer` token pattern
`(?u)\b\w\w+\b`: alphanumerics and the underscore. -/
def isWordChar (c : Char) : Bool := c.isAlphanum || c == '_'

/-- ASCII lowercasing of one character, modelling `str.lower()` as applied
by `TfidfVectorizer(lowercase=True)` for the ASCII corpora at hand. -/
def lowerChar (c : Char) : Char :=
  if c.isUpper then Char.ofNat (c.toNat + 32) else c

/-- Maximal runs of word characters in a character stream (`acc` is the
reversed run in progress). -/
def wordRuns : List Char → List Char → List (List Char)
  | [], acc => if acc.isEmpty then [] else [acc.reverse]
  | c :: rest, acc =>
    if isWordChar c then wordRuns rest (c :: acc)
    else if acc.isEmpty then wordRuns rest []
    else acc.reverse :: wordRuns rest []

/-- Tokenization of `TfidfVectorizer` with default settings: lowercase,
then the maximal word-character runs of length at least 2 (the token
pattern `\b\w\w+\b` drops single-character tokens). -/
def tokenize (s : String) : List String :=
  ((wordRuns (s.data.map lowerChar) []).filter (fun r => 2 ≤ r.length)).map String.mk

/-- The fitted vocabulary: the set of all corpus tokens, one column per
distinct term, ordered alphabetically as scikit-learn's `fit` sorts it. -/
def buildVocab (texts : List String) : List String :=
  List.insertionSort (fun a b => a ≤ b) (texts.flatMap tokenize).dedup

/-- Document frequency of term `t`: the number of corpus texts containing
`t` at least once. -/
def docFreq (texts : List String) (t : String) : ℕ :=
  (texts.filter (fun tx => (tokenize tx).contains t)).length

/-- The tf-idf vector of a text over the fitted vocabulary and idf weights:
raw term count times idf per vocabulary column; out-of-vocabulary tokens
contribute nothing.  This is the (un-normalised) row `transform` computes;
the L2 normalisation scikit-learn applies to documents and query alike is
carried inside the exact score representation of `simPair` instead. -/
def encode (vocab : List String) (idf : List ℚ) (text : String) : List ℚ :=
  (vocab.zip idf).map (fun p => ((tokenize text).count p.1 : ℚ) * p.2)

/-- The two failure modes of `build_index`: the explicit
`ValueError("Examples list cannot be empty")` guard — the spec's
`EmptyCorpusError` — and the `ValueError("empty vocabulary ...")` that
`fit_transform` raises when no text yields any token. -/
inductive BuildError where
  | emptyCorpus
  | emptyVocabulary
deriving DecidableEq, Repr

/-- The index `build_index` returns, plus the fitted texts it builds them
from: the vectorizer state (vocabulary and idf weights), the document
matrix, and the searchable texts. -/
structure TfidfIndex where
  vocab : List String
  idf : List ℚ
  matrix : List (List ℚ)
  texts : List String
deriving DecidableEq, Repr

/-- `build_index(examples)` of `src/retriever.py`, parametrised by the idf
weight function (see the header note) and by `to_text` (whose
`json.dumps`-based body never matters to the claims, which quantify over
the resulting texts). -/
def build_index {α : Type} (idfW : ℕ → ℕ → ℚ) (toText : α → String) (examples : List α) :
    Except BuildError TfidfIndex :=
  if examples.isEmpty then .error .emptyCorpus
  else
    let texts := examples.map toText
    let vocab := buildVocab texts
    if vocab.isEmpty then .error .emptyVocabulary
    else
      let idf := vocab.map (fun t => idfW texts.length (docFreq texts t))
      .ok ⟨vocab, idf, texts.map (fun tx => encode vocab idf tx), texts⟩

/-- Dot product of two rational vectors (missing trailing entries count as
zero, as in the aligned sparse representations). -/
def dotP (u v : List ℚ) : ℚ := (List.zipWith (fun a b => a * b) u v).sum

/-- Squared L2 norm. -/
def normSq (v : List ℚ) : ℚ := dotP v v

/-- Exact representation of a cosine-similarity value `d / sqrt s` as the
pair `(d, s)`; a vanishing (or, defensively, negative) `s` is the `0/0`
case scikit-learn maps to similarity `0`, represented canonically as
`(0, 1)`. -/
def pNorm (p : ℚ × ℚ) : ℚ × ℚ := if p.2 ≤ 0 then (0, 1) else p

/-- Comparison of two represented values with positive second components:
`a.1 / sqrt a.2 ≤ b.1 / sqrt b.2`, decided exactly by sign analysis and
cross-multiplied squares. -/
def cmpRaw (a b : ℚ × ℚ) : Bool :=
  if a.1 < 0 then
    if b.1 < 0 then decide (b.1 ^ 2 * a.2 ≤ a.1 ^ 2 * b.2) else true
  else
    if b.1 < 0 then false else decide (a.1 ^ 2 * b.2 ≤ b.1 ^ 2 * a.2)

/-- `≤` on represented cosine-similarity values. -/
def pLe (a b : ℚ × ℚ) : Bool := cmpRaw (pNorm a) (pNorm b)

/-- `<` on represented cosine-similarity values. -/
def pLt (a b : ℚ × ℚ) : Bool := !(pLe b a)

/-- Equality of represented cosine-similarity values. -/
def pEqv (a b : ℚ × ℚ) : Bool := pLe a b && pLe b a

/-- The represented value is exactly `1`: a positive numerator whose square
is the squared denominator (`d / sqrt s = 1` iff `d > 0` and `d ^ 2 = s`). -/
def pairIsOne (p : ℚ × ℚ) : Prop := 0 < p.1 ∧ p.1 ^ 2 = p.2

/-- The cosine similarity scikit-learn computes for one matrix row against
the query vector — the dot product of the two L2-normalised vectors —
represented exactly: `dotP row qv / sqrt (normSq row * normSq qv)`. -/
def simPair (qv row : List ℚ) : ℚ × ℚ := (dotP row qv, normSq row * normSq qv)

/-- `matrix.dot(query_vec.T)` flattened: one represented similarity per
matrix row. -/
def simScores (matrix : List (List ℚ)) (qv : List ℚ) : List (ℚ × ℚ) :=
  matrix.map (simPair qv)

/-- Score of index `i` (total, defaulting outside the range to the
representation of `0`). -/
def sKey (scores : List (ℚ × ℚ)) (i : ℕ) : ℚ × ℚ := scores.getD i (0, 1)

/-- The index order realised by `np.argsort(scores)` ascending: by score,
with ties by original position.  `numpy`'s argsort is modelled as a stable
sort — exact for the insertion sort numpy applies to the small arrays at
hand — which is equivalently a sort by the (score, index) lexicographic
order used here. -/
def idxLe (scores : List (ℚ × ℚ)) (i j : ℕ) : Prop :=
  pLt (sKey scores i) (sKey scores j) = true ∨
    (pEqv (sKey scores i) (sKey scores j) = true ∧ i ≤ j)

instance idxLeDecidable (scores : List (ℚ × ℚ)) : DecidableRel (idxLe scores) := by
  intro i j
  unfold idxLe
  infer_instance

/-- `np.argsort(similarity_scores)[::-1][:k]`: indices sorted ascending by
score, reversed to descending, truncated to `k`. -/
def topIndices (scores : List (ℚ × ℚ)) (k : ℕ) : List ℕ :=
  ((List.insertionSort (idxLe scores) (List.range scores.length)).reverse).take k

/-- The failure mode of `get_top_k`: the
`ValueError("k must be at least 1")` guard — the spec's `InvalidKError`. -/
inductive RankError where
  | invalidK
deriving DecidableEq, Repr

/-- `get_top_k(query, vectorizer, matrix, examples, k)` of
`src/retriever.py`.  Results carry the exact score representation; the
`round(float(score), 4)` the source applies for presentation acts on the
(irrational) represented value and is monotone, so it is not modelled. -/
def get_top_k {α : Type} [Inhabited α] (query : String) (vocab : List String) (idf : List ℚ)
    (matrix : List (List ℚ)) (examples : List α) (k : ℤ) :
    Except RankError (List (α × ℚ × ℚ)) :=
  if k < 1 then .error .invalidK
  else
    let kk := min k.toNat examples.length
    let scores := simScores matrix (encode vocab idf query)
    .ok ((topIndices scores kk).map (fun i => (examples.getD i default, sKey scores i)))

/-- Strict rank order of the emitted index sequence: a later entry has
either a strictly smaller score, or an equal score and a larger original
corpus index. -/
def rankPrecedes (scores : List (ℚ × ℚ)) (i j : ℕ) : Prop :=
  pLt (sKey scores j) (sKey scores i) = true ∨
    (pEqv (sKey scores i) (sKey scores j) = true ∧ j < i)

/-- The sample schema of the specification and of the module's demo: an
object with string/object properties, an enum on `priority`, and required
fields `id`, `type`, `action`. -/
def schemaSample : Json :=
  .obj [("type", .str ("object")),
        ("properties", .obj
          [("id", .obj [("type", .str ("string"))]),
           ("type", .obj [("type", .str ("string"))]),
           ("condition", .obj [("type", .str ("object"))]),
           ("action", .obj [("type", .str ("object"))]),
           ("priority", .obj
             [("type", .str ("string")),
              ("enum", .arr [.str ("low"), .str ("medium"), .str ("high")])])]),
        ("required", .arr [.str ("id"), .str ("type"), .str ("action")])]

/-- A fully valid candidate for `schemaSample` (spec §8). -/
def candValid : Json :=
  .obj [("id", .str ("wf-1")), ("type", .str ("x")), ("action", .obj [])]

/-- The candidate of spec §8 missing the two required fields `type` and
`action`. -/
def candMissing : Json := .obj [("id", .str ("wf-2"))]

/-- A candidate holding two of the three required fields. -/
def candPartial : Json :=
  .obj [("id", .str ("wf-004")), ("type", .str ("alert"))]

/-- A structurally malformed schema: a bare string is not of the
meta-schema's type `object`/`boolean`. -/
def badSchema : Json := .str ("notaschema")

theorem typeErrors_context (val inst : Json) : ∀ e ∈ typeErrors val inst, e.context = [] := by
  intro e he
  unfold typeErrors at he
  split at he
  · dsimp only at he
    split at he
    · exact absurd he (List.not_mem_nil e)
    · rw [List.mem_singleton] at he
      rw [he]
  · dsimp only at he
    split at he
    · exact absurd he (List.not_mem_nil e)
    · rw [List.mem_singleton] at he
      rw [he]

theorem requiredErrors_context (val inst : Json) :
    ∀ e ∈ requiredErrors val inst, e.context = [] := by
  unfold requiredErrors
  intro e he
  split at he
  · split at he
    · rw [List.mem_filterMap] at he
      obtain ⟨r, _, hr⟩ := he
      dsimp at hr
      split at hr
      · exact absurd hr (by simp)
      · simp at hr
        rw [← hr]
    · simp at he
  · simp at he

theorem enumErrors_context (val inst : Json) : ∀ e ∈ enumErrors val inst, e.context = [] := by
  unfold enumErrors
  intro e he
  split at he
  · split at he
    · simp at he
    · simp at he
      rw [he]
  · simp at he

mutual

theorem iterErrors_context (schema inst : Json) :
    ∀ e ∈ iterErrors schema inst, e.context = [] := by
  unfold iterErrors
  intro e he
  split at he
  · simp at he
    rw [he]
  · exact iterKeywords_context _ _ e he
  · simp at he

theorem iterKeywords_context (kvs : List (String × Json)) (inst : Json) :
    ∀ e ∈ iterKeywords kvs inst, e.context = [] := by
  unfold iterKeywords
  intro e he
  split at he
  · simp at he
  · rw [List.mem_append] at he
    rcases he with he | he
    · split at he
      · exact typeErrors_context _ _ e he
      · split at he
        · exact propertiesErrors_context _ _ e he
        · split at he
          · exact requiredErrors_context _ _ e he
          · split at he
            · exact enumErrors_context _ _ e he
            · simp at he
    · exact iterKeywords_context _ _ e he

theorem propertiesErrors_context (props inst : Json) :
    ∀ e ∈ propertiesErrors props inst, e.context = [] := by
  unfold propertiesErrors
  intro e he
  split at he
  · split at he
    · exact propertiesErrorsList_context _ _ e he
    · simp at he
  · simp at he

theorem propertiesErrorsList_context (ps ikvs : List (String × Json)) :
    ∀ e ∈ propertiesErrorsList ps ikvs, e.context = [] := by
  unfold propertiesErrorsList
  intro e he
  split at he
  · simp at he
  · rw [List.mem_append] at he
    rcases he with he | he
    · split at he
      · rw [List.mem_map] at he
        obtain ⟨e1, he1, he2⟩ := he
        rw [← he2]
        exact iterErrors_context _ _ e1 he1
      · simp at he
    · exact propertiesErrorsList_context _ _ e he

end

theorem bestMatch_mem {errs : List VErr} {e : VErr} (h : bestMatch errs = some e) :
    e ∈ errs := by
  match errs with
  | [] => exact absurd h (by simp [bestMatch])
  | e0 :: rest =>
    have hfold : ∀ (l : List VErr) (a : VErr),
        l.foldl (fun best x => if x.path.length < best.path.length then x else best) a ∈
          a :: l := by
      intro l
      induction l with
      | nil => intro a; simp
      | cons x l ih =>
        intro a
        rw [List.foldl_cons]
        have h2 := ih (if x.path.length < a.path.length then x else a)
        rcases List.mem_cons.mp h2 with h3 | h3
        · rw [h3]
          split
          · exact List.mem_cons_of_mem _ (List.mem_cons_self _ _)
          · exact List.mem_cons_self _ _
        · exact List.mem_cons_of_mem _ (List.mem_cons_of_mem _ h3)
    have h2 : rest.foldl (fun best x => if x.path.length < best.path.length then x else best) e0
        = e := by
      have h3 := h
      unfold bestMatch at h3
      exact Option.some.inj h3
    rw [← h2]
    exact hfold rest e0


/-- **C2** (amended): `validate_output` does not report the complete error
set: whenever the (well-formed) schema rejects the candidate, the returned
list carries exactly one entry — the formatted single best-match error of
the depth-first pass, whose context sub-error list is empty for the
supported keywords. -/
theorem validate_output_reports_single_best_match (c s : Json) (e : VErr)
    (hs : checkSchema s = none) (hb : bestMatch (iterErrors s c) = some e) :
    validate_output c s = (false, [fmtVErr e]) := by
  have hctx : e.context = [] := iterErrors_context s c e (bestMatch_mem hb)
  unfold validate_output jvalidate
  rw [hs, hb]
  show (false, fmtVErr e :: e.context.map fmtSubErr) = _
  rw [hctx]
  rfl

set_option maxRecDepth 20000 in
/-- Concrete evaluation used by the C2 theorems: the validator's raw error
stream for the candidate missing `type` and `action` has one entry per
missing property, in required-list order. -/
theorem iterErrors_candMissing_eval :
    iterErrors schemaSample candMissing =
      [⟨[], "\x27type\x27 is a required property", "required", []⟩,
       ⟨[], "\x27action\x27 is a required property", "required", []⟩] := by
  simp [iterErrors, iterKeywords, propertiesErrors, propertiesErrorsList, typeErrors,
    requiredErrors, enumErrors, schemaSample, candMissing, jlookup, hasKey, jeq, typeMatches,
    reprJson, reprJsonList, reprJsonObj]

set_option maxRecDepth 20000 in
/-- Concrete evaluation: the sample schema is well-formed. -/
theorem checkSchema_schemaSample_eval : checkSchema schemaSample = none := by
  simp [checkSchema, checkKeywords, checkProperties,
    checkPropertiesList, checkTypeSpec, checkRequiredSpec, checkEnumSpec,
    schemaSample, reprJson, reprJsonList, reprJsonObj]

set_option maxRecDepth 20000 in
/-- **C2** (counterexample): for the spec's own example — a candidate
missing the two required properties `type` and `action` — the returned
error list has a single entry (for `type` alone), not one entry per
missing property. -/
theorem validate_output_two_missing_one_reported_counterexample :
    validate_output candMissing schemaSample =
      (false, ["Validation error at path \x27\x27: \x27type\x27 is a required property"]) ∧
    (validate_output candMissing schemaSample).2.length = 1 := by
  have hb : bestMatch (iterErrors schemaSample candMissing) =
      some ⟨[], "\x27type\x27 is a required property", "required", []⟩ := by
    rw [iterErrors_candMissing_eval]
    simp [bestMatch]
  have h : validate_output candMissing schemaSample =
      (false, ["Validation error at path \x27\x27: \x27type\x27 is a required property"]) := by
    unfold validate_output jvalidate
    rw [checkSchema_schemaSample_eval, hb]
    rfl
  exact ⟨h, by rw [h]; rfl⟩

set_option maxRecDepth 20000 in
/-- **C2** (witness): the amended theorem applied at the concrete
missing-fields candidate and sample schema. -/
theorem validate_output_single_best_match_witness :
    validate_output candMissing schemaSample =
      (false, [fmtVErr ⟨[], "\x27type\x27 is a required property", "required", []⟩]) :=
  validate_output_reports_single_best_match candMissing schemaSample
    ⟨[], "\x27type\x27 is a required property", "required", []⟩
    checkSchema_schemaSample_eval
    (by rw [iterErrors_candMissing_eval]; simp [bestMatch])

/-- **C3** (amended): a structurally malformed schema is caught inside
`validate_output` and surfaced through the ordinary `(isValid, errors)`
verdict, as `(false, ["Schema error: ..."])` — not as a distinct raised
condition; only the message prefix distinguishes it from a failing
candidate. -/
theorem validate_output_schema_error_is_ordinary_verdict (c s : Json) (m : String)
    (hs : checkSchema s = some m) :
    validate_output c s = (false, ["Schema error: " ++ m]) := by
  unfold validate_output jvalidate
  rw [hs]
  rfl

set_option maxRecDepth 20000 in
/-- **C3** (counterexample): at the malformed schema `"notaschema"` the
call returns an ordinary `isValid = false` verdict — the same shape a
failing candidate under a good schema produces — rather than signalling a
distinct fatal condition to the caller. -/
theorem validate_output_schema_error_counterexample :
    validate_output candValid badSchema =
      (false, ["Schema error: \x27notaschema\x27 is not of type \x27object\x27, \x27boolean\x27"]) ∧
    (validate_output candValid badSchema).1 = false ∧
    (validate_output candMissing schemaSample).1 = false := by
  have h1 : validate_output candValid badSchema =
      (false,
        ["Schema error: \x27notaschema\x27 is not of type \x27object\x27, \x27boolean\x27"]) := by
    with_unfolding_all decide
  have hb : bestMatch (iterErrors schemaSample candMissing) =
      some ⟨[], "\x27type\x27 is a required property", "required", []⟩ := by
    rw [iterErrors_candMissing_eval]
    simp [bestMatch]
  have h2 : validate_output candMissing schemaSample =
      (false, ["Validation error at path \x27\x27: \x27type\x27 is a required property"]) := by
    unfold validate_output jvalidate
    rw [checkSchema_schemaSample_eval, hb]
    rfl
  exact ⟨h1, by rw [h1], by rw [h2]⟩

set_option maxRecDepth 20000 in
/-- **C3** (witness): the amended theorem applied at the concrete malformed
schema. -/
theorem validate_output_schema_error_witness :
    validate_output candPartial badSchema =
      (false,
        ["Schema error: \x27notaschema\x27 is not of type \x27object\x27, \x27boolean\x27"]) :=
  validate_output_schema_error_is_ordinary_verdict candPartial badSchema
    ("\x27notaschema\x27 is not of type \x27object\x27, \x27boolean\x27")
    (by with_unfolding_all decide)

/-- **C9**: `validate_output` is exactly the total handler applied to the
inner `jsonschema.validate` outcome; every exception outcome — including an
arbitrary unexpected internal fault, which becomes the single generic
`"Unexpected validation error: ..."` entry — is converted into a returned
`(false, errors)` verdict with a non-empty error list, so the call always
returns a definite verdict and never propagates an exception. -/
theorem validate_output_never_raises :
    (∀ c s, validate_output c s = handleValidation (jvalidate c s)) ∧
    (∀ m, handleValidation (.error (.unexpected m)) =
      (false, ["Unexpected validation error: " ++ m])) ∧
    ∀ exc : JExc, (handleValidation (.error exc)).1 = false ∧
      (handleValidation (.error exc)).2 ≠ [] := by
  refine ⟨fun c s => rfl, fun m => rfl, fun exc => ?_⟩
  cases exc <;> simp [handleValidation]

/-- **C10**: `validate_output` returns `isValid = true` exactly when the
returned error list is empty; the success result is exactly `(true, [])`
and every failure path carries a non-empty error list. -/
theorem validate_output_true_iff_no_errors (c s : Json) :
    ((validate_output c s).1 = true ↔ (validate_output c s).2 = []) ∧
    ((validate_output c s).1 = true → validate_output c s = (true, [])) := by
  unfold validate_output
  cases h : jvalidate c s with
  | ok u => simp [handleValidation]
  | error exc => cases exc <;> simp [handleValidation]

set_option maxRecDepth 20000 in
/-- Concrete evaluation used by the C10 witness: the spec's fully valid
candidate produces no errors at all. -/
theorem iterErrors_candValid_eval : iterErrors schemaSample candValid = [] := by
  simp [iterErrors, iterKeywords, propertiesErrors, propertiesErrorsList, typeErrors,
    requiredErrors, enumErrors, schemaSample, candValid, jlookup, hasKey, jeq, typeMatches,
    reprJson, reprJsonList, reprJsonObj]

set_option maxRecDepth 20000 in
/-- **C10** (witness): the invariant applied at the concrete valid
candidate of spec §8. -/
theorem validate_output_true_iff_no_errors_witness :
    validate_output candValid schemaSample = (true, []) :=
  (validate_output_true_iff_no_errors candValid schemaSample).2 (by
    have h : validate_output candValid schemaSample = (true, []) := by
      unfold validate_output jvalidate
      rw [checkSchema_schemaSample_eval, iterErrors_candValid_eval]
      rfl
    rw [h])

/-- **C5**: `coverage_metric` returns `1` when the schema declares no
required top-level fields, and otherwise exactly the ratio of required
field names present among the candidate's keys over the total required
count; the result always lies in `[0, 1]` (and is computed independently of
`validate_output`'s verdict). -/
theorem coverage_metric_spec (c s : Json) :
    (getRequired s = [] → coverage_metric c s = 1) ∧
    (getRequired s ≠ [] → coverage_metric c s =
      (requiredPresent c (getRequired s) : ℚ) / ((getRequired s).length : ℚ)) ∧
    0 ≤ coverage_metric c s ∧ coverage_metric c s ≤ 1 := by
  have hle : requiredPresent c (getRequired s) ≤ (getRequired s).length :=
    List.length_filter_le _ _
  unfold coverage_metric
  by_cases h : (getRequired s).isEmpty
  · rw [if_pos h]
    exact ⟨fun _ => rfl, fun hne => absurd (List.isEmpty_iff.mp h) hne, by norm_num, by norm_num⟩
  · rw [if_neg h]
    have hne : getRequired s ≠ [] := fun hh => h (by simp [hh])
    have hpos : 0 < ((getRequired s).length : ℚ) := by
      have h2 : 0 < (getRequired s).length := List.length_pos.mpr hne
      exact_mod_cast h2
    refine ⟨fun hh => absurd hh hne, fun _ => rfl, ?_, ?_⟩
    · positivity
    · rw [div_le_one hpos]
      exact_mod_cast hle

set_option maxRecDepth 20000 in
/-- **C5** (witness): coverage of an empty candidate under a schema with no
required fields is `1`, by the theorem; and the concrete ratio `2/3` for a
candidate holding two of the three required fields. -/
theorem coverage_metric_spec_witness :
    coverage_metric (Json.obj []) (Json.obj []) = 1 ∧
    coverage_metric candPartial schemaSample = 2 / 3 :=
  ⟨(coverage_metric_spec (Json.obj []) (Json.obj [])).1 rfl, by with_unfolding_all decide⟩

theorem pNorm_pos (p : ℚ × ℚ) : 0 < (pNorm p).2 := by
  unfold pNorm
  split
  · norm_num
  · linarith [not_le.mp (by assumption : ¬ p.2 ≤ 0)]

theorem sq_chain {da db dc sa sb sc : ℚ} (hsb : 0 < sb) (hsa : 0 ≤ sa) (hsc : 0 ≤ sc)
    (h1 : da ^ 2 * sb ≤ db ^ 2 * sa) (h2 : db ^ 2 * sc ≤ dc ^ 2 * sb) :
    da ^ 2 * sc ≤ dc ^ 2 * sa := by
  have t1 := mul_le_mul_of_nonneg_right h1 hsc
  have t2 := mul_le_mul_of_nonneg_right h2 hsa
  have t3 : da ^ 2 * sc * sb ≤ dc ^ 2 * sa * sb := by nlinarith
  exact le_of_mul_le_mul_right t3 hsb

theorem cmpRaw_total (a b : ℚ × ℚ) : cmpRaw a b = true ∨ cmpRaw b a = true := by
  unfold cmpRaw
  by_cases ha : a.1 < 0 <;> by_cases hb : b.1 < 0 <;> simp [ha, hb]
  · exact le_total _ _
  · exact le_total _ _

theorem cmpRaw_trans {a b c : ℚ × ℚ} (ha : 0 ≤ a.2) (hb : 0 < b.2) (hc : 0 ≤ c.2)
    (h1 : cmpRaw a b = true) (h2 : cmpRaw b c = true) : cmpRaw a c = true := by
  unfold cmpRaw at h1 h2 ⊢
  by_cases ha1 : a.1 < 0 <;> by_cases hb1 : b.1 < 0 <;> by_cases hc1 : c.1 < 0 <;>
    simp [ha1, hb1, hc1] at h1 h2 ⊢
  · exact sq_chain hb hc ha h2 h1
  · exact sq_chain hb ha hc h1 h2

theorem pLe_total (a b : ℚ × ℚ) : pLe a b = true ∨ pLe b a = true := cmpRaw_total _ _

theorem pLe_trans {a b c : ℚ × ℚ} (h1 : pLe a b = true) (h2 : pLe b c = true) :
    pLe a c = true :=
  cmpRaw_trans (le_of_lt (pNorm_pos a)) (pNorm_pos b) (le_of_lt (pNorm_pos c)) h1 h2

theorem pLe_refl (a : ℚ × ℚ) : pLe a a = true := (pLe_total a a).elim id id

theorem pLt_iff (a b : ℚ × ℚ) : pLt a b = true ↔ pLe b a = false := by
  unfold pLt
  cases pLe b a <;> simp

theorem pLe_of_pLt {a b : ℚ × ℚ} (h : pLt a b = true) : pLe a b = true := by
  rcases pLe_total a b with h2 | h2
  · exact h2
  · rw [pLt_iff] at h
    rw [h2] at h
    exact absurd h (by simp)

theorem pEqv_iff (a b : ℚ × ℚ) : pEqv a b = true ↔ pLe a b = true ∧ pLe b a = true := by
  unfold pEqv
  rw [Bool.and_eq_true]

theorem idxLe_iff (s : List (ℚ × ℚ)) (i j : ℕ) :
    idxLe s i j ↔ (pLe (sKey s i) (sKey s j) = true ∧
      (pLe (sKey s j) (sKey s i) = true → i ≤ j)) := by
  constructor
  · rintro (h | ⟨h1, h2⟩)
    · rw [pLt_iff] at h
      rcases pLe_total (sKey s i) (sKey s j) with h2 | h2
      · exact ⟨h2, fun hji => absurd hji (by rw [h]; simp)⟩
      · rw [h] at h2
        exact absurd h2 (by simp)
    · rw [pEqv_iff] at h1
      exact ⟨h1.1, fun _ => h2⟩
  · rintro ⟨h1, h2⟩
    by_cases hji : pLe (sKey s j) (sKey s i) = true
    · exact Or.inr ⟨(pEqv_iff _ _).mpr ⟨h1, hji⟩, h2 hji⟩
    · refine Or.inl ((pLt_iff _ _).mpr ?_)
      exact Bool.eq_false_iff.mpr hji

instance idxLeTrans (s : List (ℚ × ℚ)) : IsTrans ℕ (idxLe s) := by
  constructor
  intro i j l hij hjl
  rw [idxLe_iff] at hij hjl ⊢
  refine ⟨pLe_trans hij.1 hjl.1, fun hli => ?_⟩
  have hji : pLe (sKey s j) (sKey s i) = true := pLe_trans hjl.1 hli
  have hlj : pLe (sKey s l) (sKey s j) = true := pLe_trans hli hij.1
  exact le_trans (hij.2 hji) (hjl.2 hlj)

instance idxLeTotal (s : List (ℚ × ℚ)) : IsTotal ℕ (idxLe s) := by
  constructor
  intro i j
  by_cases hij : pLe (sKey s i) (sKey s j) = true <;>
    by_cases hji : pLe (sKey s j) (sKey s i) = true
  · rcases Nat.le_total i j with h | h
    · exact Or.inl ((idxLe_iff s i j).mpr ⟨hij, fun _ => h⟩)
    · exact Or.inr ((idxLe_iff s j i).mpr ⟨hji, fun _ => h⟩)
  · exact Or.inl ((idxLe_iff s i j).mpr ⟨hij, fun h => absurd h hji⟩)
  · exact Or.inr ((idxLe_iff s j i).mpr ⟨hji, fun h => absurd h hij⟩)
  · rcases pLe_total (sKey s i) (sKey s j) with h | h
    · exact absurd h hij
    · exact absurd h hji

theorem topIndices_pairwise (s : List (ℚ × ℚ)) (k : ℕ) :
    (topIndices s k).Pairwise (rankPrecedes s) := by
  unfold topIndices
  apply List.Pairwise.sublist (List.take_sublist _ _)
  have hsorted : List.Sorted (idxLe s) (List.insertionSort (idxLe s) (List.range s.length)) :=
    List.sorted_insertionSort _ _
  have hnodup : (List.insertionSort (idxLe s) (List.range s.length)).Nodup :=
    ((List.perm_insertionSort _ _).nodup_iff).mpr (List.nodup_range _)
  have hrevp : ((List.insertionSort (idxLe s) (List.range s.length)).reverse).Pairwise
      (fun i j => idxLe s j i) := List.pairwise_reverse.mpr hsorted
  have hrevn : ((List.insertionSort (idxLe s) (List.range s.length)).reverse).Nodup :=
    List.nodup_reverse.mpr hnodup
  refine (hrevp.and hrevn).imp ?_
  rintro i j ⟨hji, hne⟩
  rw [idxLe_iff] at hji
  by_cases hij : pLe (sKey s i) (sKey s j) = true
  · refine Or.inr ⟨(pEqv_iff _ _).mpr ⟨hij, hji.1⟩, ?_⟩
    have h2 : j ≤ i := hji.2 hij
    omega
  · exact Or.inl ((pLt_iff _ _).mpr (Bool.eq_false_iff.mpr hij))

theorem topIndices_length (s : List (ℚ × ℚ)) (k : ℕ) :
    (topIndices s k).length = min k s.length := by
  unfold topIndices
  rw [List.length_take, List.length_reverse, (List.perm_insertionSort _ _).length_eq,
    List.length_range]

theorem topIndices_full (s : List (ℚ × ℚ)) (k : ℕ) (hk : s.length ≤ k) :
    (topIndices s k).Perm (List.range s.length) := by
  unfold topIndices
  have hlen : ((List.insertionSort (idxLe s) (List.range s.length)).reverse).length
      = s.length := by
    rw [List.length_reverse, (List.perm_insertionSort _ _).length_eq, List.length_range]
  rw [List.take_of_length_le (by rw [hlen]; exact hk)]
  exact (List.reverse_perm _).trans (List.perm_insertionSort _ _)

theorem topIndices_head_max (s : List (ℚ × ℚ)) (k : ℕ) (hk : 1 ≤ k) (hn : 0 < s.length) :
    ∃ i0 rest, topIndices s k = i0 :: rest ∧ i0 < s.length ∧
      ∀ j, j < s.length → pLe (sKey s j) (sKey s i0) = true := by
  have hperm : ((List.insertionSort (idxLe s) (List.range s.length)).reverse).Perm
      (List.range s.length) :=
    (List.reverse_perm _).trans (List.perm_insertionSort _ _)
  have hlen : ((List.insertionSort (idxLe s) (List.range s.length)).reverse).length
      = s.length := by
    rw [List.length_reverse, (List.perm_insertionSort _ _).length_eq, List.length_range]
  have hne : (List.insertionSort (idxLe s) (List.range s.length)).reverse ≠ [] := by
    intro h
    rw [h] at hlen
    simp at hlen
    omega
  obtain ⟨i0, rest, hcons⟩ := List.exists_cons_of_ne_nil hne
  have hrevp : ((List.insertionSort (idxLe s) (List.range s.length)).reverse).Pairwise
      (fun i j => idxLe s j i) :=
    List.pairwise_reverse.mpr (List.sorted_insertionSort _ _)
  refine ⟨i0, rest.take (k - 1), ?_, ?_, ?_⟩
  · unfold topIndices
    rw [hcons]
    obtain ⟨k1, rfl⟩ : ∃ k1, k = k1 + 1 := ⟨k - 1, by omega⟩
    rw [List.take_cons]
    simp
  · have : i0 ∈ List.range s.length := hperm.mem_iff.mp (hcons ▸ List.mem_cons_self i0 rest)
    exact List.mem_range.mp this
  · intro j hj
    have hjmem : j ∈ (List.insertionSort (idxLe s) (List.range s.length)).reverse :=
      hperm.symm.mem_iff.mp (List.mem_range.mpr hj)
    rw [hcons] at hjmem
    rcases List.mem_cons.mp hjmem with rfl | hjrest
    · exact pLe_refl _
    · have h2 : idxLe s j i0 := by
        rw [hcons] at hrevp
        exact (List.pairwise_cons.mp hrevp).1 j hjrest
      exact ((idxLe_iff s j i0).mp h2).1

theorem topIndices_mem {s : List (ℚ × ℚ)} {k i : ℕ} (h : i ∈ topIndices s k) :
    i < s.length := by
  unfold topIndices at h
  have h2 : i ∈ (List.insertionSort (idxLe s) (List.range s.length)).reverse :=
    List.mem_of_mem_take h
  rw [List.mem_reverse, List.mem_insertionSort, List.mem_range] at h2
  exact h2

theorem map_getD_range {α : Type} (l : List α) (d : α) :
    (List.range l.length).map (fun i => l.getD i d) = l := by
  induction l with
  | nil => rfl
  | cons a t ih =>
    rw [List.length_cons, List.range_succ_eq_map, List.map_cons, List.map_map]
    simp only [Function.comp_def, List.getD_cons_zero, List.getD_cons_succ]
    rw [ih]

theorem getD_map_of_lt {α β : Type} (f : α → β) (l : List α) (i : ℕ) (h : i < l.length)
    (d : α) (d2 : β) : (l.map f).getD i d2 = f (l.getD i d) := by
  rw [List.getD_eq_getElem?_getD, List.getElem?_map, List.getD_eq_getElem?_getD,
    List.getElem?_eq_getElem h]
  rfl

theorem get_top_k_ok {α : Type} [Inhabited α] {query : String} {vocab : List String}
    {idf : List ℚ} {matrix : List (List ℚ)} {examples : List α} {k : ℤ}
    {res : List (α × ℚ × ℚ)}
    (hr : get_top_k query vocab idf matrix examples k = .ok res) :
    ¬ k < 1 ∧ res = (topIndices (simScores matrix (encode vocab idf query))
        (min k.toNat examples.length)).map
      (fun i => (examples.getD i default,
        sKey (simScores matrix (encode vocab idf query)) i)) := by
  by_cases hk : k < 1
  · rw [get_top_k, if_pos hk] at hr
    exact absurd hr (by simp)
  · rw [get_top_k, if_neg hk] at hr
    refine ⟨hk, ?_⟩
    injection hr with h
    exact h.symm

/-- **C1** (amended): any successful `get_top_k` result is the image of the
emitted index sequence, whose entries are strictly ordered: scores are
non-increasing along the output, and two equal scores appear in *reverse*
corpus order (larger original index first) — `np.argsort(...)[::-1]`
reverses the stable ascending tie order.  In particular the result is a
deterministic function of the inputs. -/
theorem get_top_k_sorted_desc_rev_ties {α : Type} [Inhabited α] (query : String)
    (vocab : List String) (idf : List ℚ) (matrix : List (List ℚ)) (examples : List α)
    (k : ℤ) (res : List (α × ℚ × ℚ))
    (hr : get_top_k query vocab idf matrix examples k = .ok res) :
    res = (topIndices (simScores matrix (encode vocab idf query))
        (min k.toNat examples.length)).map
      (fun i => (examples.getD i default,
        sKey (simScores matrix (encode vocab idf query)) i)) ∧
    (topIndices (simScores matrix (encode vocab idf query))
        (min k.toNat examples.length)).Pairwise
      (rankPrecedes (simScores matrix (encode vocab idf query))) ∧
    (res.map (fun x => x.2)).Pairwise (fun a b => pLe b a = true) := by
  obtain ⟨hk, hres⟩ := get_top_k_ok hr
  refine ⟨hres, topIndices_pairwise _ _, ?_⟩
  rw [hres, List.map_map]
  rw [List.pairwise_map]
  refine (topIndices_pairwise _ _).imp ?_
  rintro i j hij
  rcases hij with h | h
  · exact pLe_of_pLt h
  · exact ((pEqv_iff _ _).mp h.1).2

deriving instance DecidableEq for Except

/-- **C1** (counterexample): two distinct documents with identical text
(hence exactly equal scores) come back in reverse corpus order — document 1
before document 0 — under the index built from that corpus, refuting the
claimed original-corpus-order tie-breaking. -/
theorem get_top_k_ties_reversed_counterexample :
    build_index (fun _ _ => 1) Prod.snd [((0 : ℕ), "aa"), ((1 : ℕ), "aa")] =
      .ok ⟨["aa"], [1], [[1], [1]], ["aa", "aa"]⟩ ∧
    get_top_k "aa" ["aa"] [1] [[1], [1]] [((0 : ℕ), "aa"), ((1 : ℕ), "aa")] 2 =
      .ok [(((1 : ℕ), "aa"), (1, 1)), (((0 : ℕ), "aa"), (1, 1))] := by
  constructor
  · with_unfolding_all decide
  · with_unfolding_all decide

/-- **C1** (witness): the amended theorem applied at the concrete tied
corpus of the counterexample. -/
theorem get_top_k_sorted_desc_rev_ties_witness :
    [(((1 : ℕ), "aa"), ((1 : ℚ), (1 : ℚ))), (((0 : ℕ), "aa"), (1, 1))] =
      (topIndices (simScores [[1], [1]] (encode ["aa"] [1] "aa"))
          (min (2 : ℤ).toNat 2)).map
        (fun i => (([((0 : ℕ), "aa"), ((1 : ℕ), "aa")]).getD i default,
          sKey (simScores [[1], [1]] (encode ["aa"] [1] "aa")) i)) ∧
    (topIndices (simScores [[1], [1]] (encode ["aa"] [1] "aa"))
        (min (2 : ℤ).toNat 2)).Pairwise
      (rankPrecedes (simScores [[1], [1]] (encode ["aa"] [1] "aa"))) ∧
    (([(((1 : ℕ), "aa"), ((1 : ℚ), (1 : ℚ))), (((0 : ℕ), "aa"), (1, 1))]).map
        (fun x => x.2)).Pairwise (fun a b => pLe b a = true) :=
  get_top_k_sorted_desc_rev_ties "aa" ["aa"] [1] [[1], [1]]
    [((0 : ℕ), "aa"), ((1 : ℕ), "aa")] 2
    [(((1 : ℕ), "aa"), (1, 1)), (((0 : ℕ), "aa"), (1, 1))]
    (by with_unfolding_all decide)

/-- **C6**: a successful `get_top_k` always returns `min k n` results
(`n` the corpus size), and whenever `k` exceeds the corpus size the call
succeeds with exactly all `n` documents — the returned first components are
a permutation of the corpus, so every document appears exactly once. -/
theorem get_top_k_clamps_and_returns_all {α : Type} [Inhabited α] (query : String)
    (vocab : List String) (idf : List ℚ) (matrix : List (List ℚ)) (examples : List α)
    (k : ℤ) (hlen : matrix.length = examples.length) :
    (∀ res, get_top_k query vocab idf matrix examples k = .ok res →
      res.length = min k.toNat examples.length) ∧
    ((examples.length : ℤ) < k →
      ∃ res, get_top_k query vocab idf matrix examples k = .ok res ∧
        res.length = examples.length ∧ (res.map Prod.fst).Perm examples) := by
  have hslen : (simScores matrix (encode vocab idf query)).length = examples.length := by
    rw [simScores, List.length_map, hlen]
  constructor
  · intro res hr
    obtain ⟨hk, hres⟩ := get_top_k_ok hr
    rw [hres, List.length_map, topIndices_length, hslen]
    omega
  · intro hk
    have hk1 : ¬ k < 1 := by omega
    have hmin : min k.toNat examples.length = examples.length := by omega
    have hfull : (topIndices (simScores matrix (encode vocab idf query))
        (min k.toNat examples.length)).Perm (List.range examples.length) := by
      rw [← hslen]
      apply topIndices_full
      rw [hslen]
      omega
    refine ⟨(topIndices (simScores matrix (encode vocab idf query))
        (min k.toNat examples.length)).map
      (fun i => (examples.getD i default,
        sKey (simScores matrix (encode vocab idf query)) i)), ?_, ?_, ?_⟩
    · rw [get_top_k, if_neg hk1]
    · rw [List.length_map, topIndices_length, hslen]
      omega
    · rw [List.map_map]
      have h2 := hfull.map (fun i => examples.getD i default)
      rw [map_getD_range examples default] at h2
      exact h2

/-- **C6** (witness): the theorem applied at a one-document corpus with
`k = 5`, instantiating both the general length equation and the
clamped-overflow conjunct. -/
theorem get_top_k_clamps_witness :
    ∃ res, get_top_k "aa" ["aa"] [1] [[1]] ["aa"] 5 = .ok res ∧
      res.length = (["aa"]).length ∧ (res.map Prod.fst).Perm ["aa"] :=
  (get_top_k_clamps_and_returns_all "aa" ["aa"] [1] [[1]] ["aa"] 5 rfl).2 (by norm_num)

/-- **C7**: `get_top_k` with `k < 1` fails with the `InvalidKError`
(`ValueError("k must be at least 1")`) — the guard runs before any ranking,
for every query, index and corpus, and no result sequence is returned. -/
theorem get_top_k_invalid_k {α : Type} [Inhabited α] (query : String) (vocab : List String)
    (idf : List ℚ) (matrix : List (List ℚ)) (examples : List α) (k : ℤ) (hk : k < 1) :
    get_top_k query vocab idf matrix examples k = .error .invalidK := by
  rw [get_top_k, if_pos hk]

/-- **C7** (witness): the guard at the two concrete values the spec lists,
`k = 0` and `k = -1`. -/
theorem get_top_k_invalid_k_witness :
    get_top_k "q" ["aa"] [1] [[1]] ["aa"] 0 = .error .invalidK ∧
    get_top_k "q" ["aa"] [1] [[1]] ["aa"] (-1) = .error .invalidK :=
  ⟨get_top_k_invalid_k "q" ["aa"] [1] [[1]] ["aa"] 0 (by norm_num),
   get_top_k_invalid_k "q" ["aa"] [1] [[1]] ["aa"] (-1) (by norm_num)⟩

/-- **C8**: `build_index` on an empty corpus fails with the
`EmptyCorpusError` (`ValueError("Examples list cannot be empty")`), for
every idf weighting and text extraction — index construction never
succeeds on zero documents. -/
theorem build_index_empty_corpus {α : Type} (idfW : ℕ → ℕ → ℚ) (toText : α → String) :
    build_index idfW toText ([] : List α) = .error .emptyCorpus := rfl

theorem dotP_eq_sum (u v : List ℚ) :
    dotP u v = ∑ i ∈ Finset.range (min u.length v.length), u.getD i 0 * v.getD i 0 := by
  induction u generalizing v with
  | nil => simp [dotP]
  | cons a u ih =>
    cases v with
    | nil => simp [dotP]
    | cons b v =>
      rw [dotP, List.zipWith_cons_cons, List.sum_cons]
      rw [show (List.zipWith (fun x y => x * y) u v).sum = dotP u v from rfl, ih]
      rw [List.length_cons, List.length_cons, Nat.succ_min_succ, Finset.sum_range_succ']
      simp only [List.getD_cons_zero, List.getD_cons_succ]
      ring

theorem normSq_eq_sum (v : List ℚ) :
    normSq v = ∑ i ∈ Finset.range v.length, v.getD i 0 ^ 2 := by
  rw [normSq, dotP_eq_sum, min_self]
  exact Finset.sum_congr rfl (fun i _ => (pow_two (v.getD i 0)).symm)

theorem normSq_nonneg (v : List ℚ) : 0 ≤ normSq v := by
  rw [normSq_eq_sum]
  exact Finset.sum_nonneg (fun i _ => by positivity)

theorem sum_sq_le_normSq (l : List ℚ) (k : ℕ) (hk : k ≤ l.length) :
    ∑ i ∈ Finset.range k, l.getD i 0 ^ 2 ≤ normSq l := by
  rw [normSq_eq_sum]
  exact Finset.sum_le_sum_of_subset_of_nonneg (Finset.range_subset.mpr hk)
    (fun i _ _ => by positivity)

/-- Cauchy-Schwarz for the list dot product. -/
theorem dotP_sq_le (u v : List ℚ) : dotP u v ^ 2 ≤ normSq u * normSq v := by
  rw [dotP_eq_sum]
  refine le_trans (Finset.sum_mul_sq_le_sq_mul_sq (Finset.range (min u.length v.length))
    (fun i => u.getD i 0) (fun i => v.getD i 0)) ?_
  have h1 := sum_sq_le_normSq u (min u.length v.length) (min_le_left _ _)
  have h2 := sum_sq_le_normSq v (min u.length v.length) (min_le_right _ _)
  have h3 : (0 : ℚ) ≤ ∑ i ∈ Finset.range (min u.length v.length), v.getD i 0 ^ 2 :=
    Finset.sum_nonneg (fun i _ => by positivity)
  exact mul_le_mul h1 h2 h3 (normSq_nonneg u)

theorem dotP_nonneg {u v : List ℚ} (hu : ∀ x ∈ u, 0 ≤ x) (hv : ∀ x ∈ v, 0 ≤ x) :
    0 ≤ dotP u v := by
  induction u generalizing v with
  | nil => simp [dotP]
  | cons a u ih =>
    cases v with
    | nil => simp [dotP]
    | cons b v =>
      rw [dotP, List.zipWith_cons_cons, List.sum_cons]
      have h1 := ih (fun x hx => hu x (List.mem_cons_of_mem _ hx))
        (fun x hx => hv x (List.mem_cons_of_mem _ hx))
      have ha := hu a (List.mem_cons_self _ _)
      have hb := hv b (List.mem_cons_self _ _)
      exact add_nonneg (mul_nonneg ha hb) h1

theorem encode_nonneg {vocab : List String} {idf : List ℚ} (hidf : ∀ w ∈ idf, 0 ≤ w)
    (text : String) : ∀ x ∈ encode vocab idf text, 0 ≤ x := by
  intro x hx
  rw [encode, List.mem_map] at hx
  obtain ⟨⟨t, w⟩, hp, rfl⟩ := hx
  have hw : w ∈ idf := (List.of_mem_zip hp).2
  exact mul_nonneg (by positivity) (hidf w hw)

theorem build_index_ok {α : Type} {idfW : ℕ → ℕ → ℚ} {toText : α → String}
    {examples : List α} {idx : TfidfIndex}
    (hb : build_index idfW toText examples = .ok idx) :
    idx.texts = examples.map toText ∧
    idx.vocab = buildVocab idx.texts ∧
    idx.idf = idx.vocab.map (fun t => idfW idx.texts.length (docFreq idx.texts t)) ∧
    idx.matrix = idx.texts.map (fun tx => encode idx.vocab idx.idf tx) ∧
    examples ≠ [] := by
  by_cases h1 : examples.isEmpty
  · rw [build_index, if_pos h1] at hb
    exact absurd hb (by simp)
  · rw [build_index, if_neg h1] at hb
    dsimp only at hb
    by_cases h2 : (buildVocab (examples.map toText)).isEmpty
    · rw [if_pos h2] at hb
      exact absurd hb (by simp)
    · rw [if_neg h2] at hb
      injection hb with h
      rw [← h]
      refine ⟨rfl, rfl, rfl, rfl, ?_⟩
      intro hnil
      rw [hnil] at h1
      exact h1 rfl

theorem pNorm_of_pos {p : ℚ × ℚ} (h : 0 < p.2) : pNorm p = p := by
  unfold pNorm
  rw [if_neg (not_le.mpr h)]

theorem pNorm_of_nonpos {p : ℚ × ℚ} (h : p.2 ≤ 0) : pNorm p = (0, 1) := by
  unfold pNorm
  rw [if_pos h]

theorem cmpRaw_of_nonneg {a b : ℚ × ℚ} (ha : 0 ≤ a.1) (hb : 0 ≤ b.1) :
    cmpRaw a b = decide (a.1 ^ 2 * b.2 ≤ b.1 ^ 2 * a.2) := by
  unfold cmpRaw
  rw [if_neg (not_lt.mpr ha), if_neg (not_lt.mpr hb)]

/-- Any represented similarity with non-negative numerator obeying the
Cauchy-Schwarz bound is at most the self-similarity value `1`
(represented as `(S, S * S)` for positive `S`). -/
theorem pLe_of_sq_le {d s SS : ℚ} (hd : 0 ≤ d) (hs : d ^ 2 ≤ s) (hS : 0 < SS) :
    pLe (d, s) (SS, SS * SS) = true := by
  unfold pLe
  rw [pNorm_of_pos (show (0 : ℚ) < (SS, SS * SS).2 from mul_pos hS hS)]
  by_cases hs0 : s ≤ 0
  · rw [pNorm_of_nonpos hs0]
    rw [cmpRaw_of_nonneg (by norm_num) (le_of_lt hS)]
    simp only [decide_eq_true_eq]
    nlinarith
  · rw [pNorm_of_pos (show (0 : ℚ) < (d, s).2 from not_le.mp hs0)]
    rw [cmpRaw_of_nonneg hd (le_of_lt hS)]
    simp only [decide_eq_true_eq]
    nlinarith [mul_le_mul_of_nonneg_right hs (mul_self_nonneg SS)]

/-- A represented value equal (in the value order) to a represented `1` is
itself a represented `1`. -/
theorem pairIsOne_of_pEqv {a b : ℚ × ℚ} (ha : pairIsOne a) (hab : pLe a b = true)
    (hba : pLe b a = true) : pairIsOne b := by
  obtain ⟨ha1, ha2⟩ := ha
  have ha2pos : 0 < a.2 := by nlinarith
  have hpa : pNorm a = a := pNorm_of_pos ha2pos
  by_cases hb2 : b.2 ≤ 0
  · exfalso
    rw [pLe, hpa, pNorm_of_nonpos hb2, cmpRaw_of_nonneg (le_of_lt ha1) (by norm_num)] at hab
    simp only [decide_eq_true_eq] at hab
    nlinarith
  · have hb2p : 0 < b.2 := not_le.mp hb2
    have hpb : pNorm b = b := pNorm_of_pos hb2p
    by_cases hb1 : b.1 < 0
    · exfalso
      rw [pLe, hpa, hpb] at hab
      unfold cmpRaw at hab
      rw [if_neg (not_lt.mpr (le_of_lt ha1)), if_pos hb1] at hab
      exact absurd hab (by simp)
    · push_neg at hb1
      rw [pLe, hpa, hpb, cmpRaw_of_nonneg (le_of_lt ha1) hb1] at hab
      rw [pLe, hpb, hpa, cmpRaw_of_nonneg hb1 (le_of_lt ha1)] at hba
      simp only [decide_eq_true_eq] at hab hba
      have heq : a.1 ^ 2 * b.2 = b.1 ^ 2 * a.2 := le_antisymm hab hba
      have hasq : (0 : ℚ) < a.1 ^ 2 := by positivity
      constructor
      · rcases lt_or_eq_of_le hb1 with h | h
        · exact h
        · exfalso
          rw [← h] at heq
          nlinarith [mul_pos hasq hb2p]
      · have h3 : a.1 ^ 2 * b.2 = a.1 ^ 2 * b.1 ^ 2 := by
          rw [heq, ← ha2]
          ring
        exact (mul_left_cancel₀ (ne_of_gt hasq) h3).symm

/-- **C4** (amended): for every document of a successfully indexed corpus
whose encoded vector is non-zero (its text holds at least one indexed
token), ranking the document's exact text against that corpus gives the
document a self-cosine-similarity of exactly `1` (the represented value of
its score pair is `1`), and the rank-1 entry of the result carries the
maximal score, itself a represented `1` — the document's own score, which
by Cauchy-Schwarz no other document exceeds.  (The rank-1 entry is the
document itself unless a parallel-vector duplicate ties; ties go to the
later corpus index, see C1.) -/
theorem get_top_k_self_retrieval {α : Type} [Inhabited α] (idfW : ℕ → ℕ → ℚ)
    (hidf : ∀ n d, 0 < idfW n d) (toText : α → String) (examples : List α)
    (idx : TfidfIndex) (hb : build_index idfW toText examples = .ok idx)
    (i : ℕ) (hi : i < examples.length)
    (hnz : normSq (encode idx.vocab idx.idf (idx.texts.getD i "")) ≠ 0)
    (k : ℤ) (res : List (α × ℚ × ℚ))
    (hr : get_top_k (idx.texts.getD i "") idx.vocab idx.idf idx.matrix examples k = .ok res) :
    pairIsOne (simPair (encode idx.vocab idx.idf (idx.texts.getD i ""))
      (encode idx.vocab idx.idf (idx.texts.getD i ""))) ∧
    res ≠ [] ∧ pairIsOne (res.headD (default, (0, 1))).2 := by
  obtain ⟨htexts, hvocab, hidfeq, hmatrix, hcne⟩ := build_index_ok hb
  obtain ⟨hk, hres⟩ := get_top_k_ok hr
  set qv := encode idx.vocab idx.idf (idx.texts.getD i "") with hqv
  set scores := simScores idx.matrix qv with hscoresdef
  have htlen : idx.texts.length = examples.length := by rw [htexts, List.length_map]
  have hmlen : idx.matrix.length = idx.texts.length := by rw [hmatrix, List.length_map]
  have hslen : scores.length = idx.matrix.length := by
    rw [hscoresdef, simScores, List.length_map]
  have hidf_nonneg : ∀ w ∈ idx.idf, 0 ≤ w := by
    rw [hidfeq]
    intro w hw
    rw [List.mem_map] at hw
    obtain ⟨t, _, rfl⟩ := hw
    exact le_of_lt (hidf _ _)
  have hqv_nonneg : ∀ x ∈ qv, 0 ≤ x := encode_nonneg hidf_nonneg _
  have hS_pos : 0 < normSq qv := lt_of_le_of_ne (normSq_nonneg qv) (Ne.symm hnz)
  have hself : pairIsOne (simPair qv qv) := by
    refine ⟨hS_pos, ?_⟩
    show dotP qv qv ^ 2 = normSq qv * normSq qv
    exact pow_two (dotP qv qv)
  have hrow : ∀ j, j < idx.matrix.length →
      idx.matrix.getD j [] = encode idx.vocab idx.idf (idx.texts.getD j "") := by
    intro j hj
    rw [hmatrix]
    exact getD_map_of_lt _ _ _ (hmlen ▸ hj) "" []
  have hkey : ∀ j, j < idx.matrix.length →
      sKey scores j = simPair qv (idx.matrix.getD j []) := by
    intro j hj
    rw [hscoresdef, simScores, sKey]
    exact getD_map_of_lt _ _ _ hj [] (0, 1)
  have hbound : ∀ j, j < scores.length → pLe (sKey scores j) (simPair qv qv) = true := by
    intro j hj
    have hj2 : j < idx.matrix.length := by rw [← hslen]; exact hj
    rw [hkey j hj2]
    have hrownn : ∀ x ∈ idx.matrix.getD j [], 0 ≤ x := by
      rw [hrow j hj2]
      exact encode_nonneg hidf_nonneg _
    have hd : 0 ≤ dotP (idx.matrix.getD j []) qv := dotP_nonneg hrownn hqv_nonneg
    have hcs : dotP (idx.matrix.getD j []) qv ^ 2 ≤
        normSq (idx.matrix.getD j []) * normSq qv := dotP_sq_le _ _
    exact pLe_of_sq_le hd hcs hS_pos
  have hkk1 : 1 ≤ min k.toNat examples.length := by omega
  have hsn : 0 < scores.length := by
    rw [hslen, hmlen, htlen]
    omega
  obtain ⟨i0, rest, hcons, hi0, hmax⟩ :=
    topIndices_head_max scores (min k.toNat examples.length) hkk1 hsn
  have hqvkey : sKey scores i = simPair qv qv := by
    have hi2 : i < idx.matrix.length := by
      rw [hmlen, htlen]
      exact hi
    rw [hkey i hi2, hrow i hi2, ← hqv]
  have h2 : pLe (simPair qv qv) (sKey scores i0) = true := by
    rw [← hqvkey]
    refine hmax i ?_
    rw [hslen, hmlen, htlen]
    exact hi
  have h1 : pLe (sKey scores i0) (simPair qv qv) = true := hbound i0 hi0
  have hone : pairIsOne (sKey scores i0) := pairIsOne_of_pEqv hself h2 h1
  refine ⟨hself, ?_, ?_⟩
  · rw [hres, hcons]
    simp
  · rw [hres, hcons, List.map_cons, List.headD_cons]
    exact hone

/-- **C4** (counterexample): in the corpus `["aa", "x"]` the text `"x"`
yields no token of length ≥ 2, so its vector is zero; ranking the exact
text of that document gives it (and everything else) the represented score
`(0, 0)` — cosine similarity `0`, not `1.0` — refuting the claimed
universal self-similarity round trip. -/
theorem get_top_k_self_similarity_counterexample :
    build_index (fun _ _ => 1) (fun s => s) ["aa", "x"] =
      .ok ⟨["aa"], [1], [[1], [0]], ["aa", "x"]⟩ ∧
    get_top_k "x" ["aa"] [1] [[1], [0]] ["aa", "x"] 2 =
      .ok [("x", (0, 0)), ("aa", (0, 0))] ∧
    ¬ pairIsOne ((0 : ℚ), (0 : ℚ)) := by
  refine ⟨?_, ?_, ?_⟩
  · with_unfolding_all decide
  · with_unfolding_all decide
  · intro h
    exact absurd h.1 (by norm_num)

/-- **C4** (witness): the amended theorem applied at the one-document
corpus `["aa"]`, whose vector is non-zero: the self-score is a represented
`1` and so is the score of the rank-1 result. -/
theorem get_top_k_self_retrieval_witness :
    pairIsOne (simPair (encode ["aa"] [1] ((["aa"]).getD 0 ""))
      (encode ["aa"] [1] ((["aa"]).getD 0 ""))) ∧
    ([(("aa" : String), ((1 : ℚ), (1 : ℚ)))] : List (String × ℚ × ℚ)) ≠ [] ∧
    pairIsOne ((([(("aa" : String), ((1 : ℚ), (1 : ℚ)))] :
      List (String × ℚ × ℚ)).headD (default, (0, 1))).2) :=
  get_top_k_self_retrieval (fun _ _ => 1) (fun _ _ => by norm_num) (fun s => s) ["aa"]
    (TfidfIndex.mk ["aa"] [1] [[1]] ["aa"]) (by with_unfolding_all decide) 0 (by norm_num)
    (by with_unfolding_all decide) 1 [("aa", (1, 1))] (by with_unfolding_all decide)
